import Mathlib

/-!
Verification of the jeff65 parser generator and code-generation core
against its natural-language specification.

The Python sources are shallowly embedded: each Lean definition mirrors
one Python function or method from `jeff65/parsing.py`,
`jeff65/gold/asm.py` or `jeff65/gold/passes/binding.py`.  Machine
integers are modelled as `Nat`; Python sets as `Finset`; fallible code
returns `Option` or `Except`; the `while updated` fixed-point loops are
modelled with an explicit fuel parameter together with the same
per-pass "did anything grow" flag the Python code uses.
-/

/-- Grammar symbols.  The Python code distinguishes terminals from
nonterminals structurally (`Grammar.is_terminal`: strings are
nonterminals, everything else is a terminal); `Grammar.EMPTY` is a
distinguished sentinel object (also treated as a terminal by
`is_terminal`).  Symbols of the extended grammar are triples in Python;
since every tuple-unpacking site (`sym[1]`) just extracts the
underlying symbol, symbols are modelled atomically here. -/
inductive GSym where
  | term : Nat → GSym
  | nonterm : Nat → GSym
  | empty : GSym
deriving DecidableEq

/-- `Grammar.is_terminal`: bare nonterminals are strings, everything
else (token types, the EMPTY sentinel) is a terminal. -/
def isTerminal : GSym → Bool
  | .term _ => true
  | .nonterm _ => false
  | .empty => true

/-- Strict lexicographic order on `(line, column)` pairs, as used by
Python tuple comparison in `TextSpan.__attrs_post_init__`. -/
def pairLt (p q : Nat × Nat) : Prop :=
  p.1 < q.1 ∨ (p.1 = q.1 ∧ p.2 < q.2)

instance (p q : Nat × Nat) : Decidable (pairLt p q) := by
  unfold pairLt; infer_instance

/-- Non-strict lexicographic order on `(line, column)` pairs. -/
def pairLe (p q : Nat × Nat) : Prop :=
  p.1 < q.1 ∨ (p.1 = q.1 ∧ p.2 ≤ q.2)

instance (p q : Nat × Nat) : Decidable (pairLe p q) := by
  unfold pairLe; infer_instance

/-- `TextSpan` record (`parsing.py`, `@attr.s` class `TextSpan`). -/
structure TextSpan where
  startLine : Nat
  startColumn : Nat
  endLine : Nat
  endColumn : Nat
deriving DecidableEq

/-- `TextSpan.start` property. -/
def TextSpan.startPos (s : TextSpan) : Nat × Nat := (s.startLine, s.startColumn)

/-- `TextSpan.end` property. -/
def TextSpan.endPos (s : TextSpan) : Nat × Nat := (s.endLine, s.endColumn)

/-- The `TextSpan` constructor including `__attrs_post_init__`: if
`start > end` lexicographically, the endpoints are swapped. -/
def mkTextSpan (sl sc el ec : Nat) : TextSpan :=
  if pairLt (el, ec) (sl, sc) then ⟨el, ec, sl, sc⟩ else ⟨sl, sc, el, ec⟩

/-- Token record (`parsing.py`, `@attr.s` class `Token`).  The `text`
field is `None` for EOF tokens, hence `Option String`; `span` defaults
to `None` in Python, hence `Option TextSpan`. -/
structure Token where
  t : GSym
  text : Option String
  channel : Int
  span : Option TextSpan
deriving DecidableEq

/-- The `attrs`-generated `Token.__eq__`: the fields `channel` and
`span` are declared with `cmp=False`, so equality compares the tuple of
the remaining fields `(t, text)` only. -/
def tokenEq (a b : Token) : Prop := (a.t, a.text) = (b.t, b.text)

instance (a b : Token) : Decidable (tokenEq a b) := by
  unfold tokenEq; infer_instance

/-- `ReStream.CHANNEL_ALL`. -/
def CHANNEL_ALL : Int := -1

/-- `ReStream.CHANNEL_DEFAULT`. -/
def CHANNEL_DEFAULT : Int := 0

/-- `ReStream` state: the remaining lines of the underlying iterator,
the current line, and the `(line, column)` cursor. -/
structure ReStream where
  stream : List String
  current : String
  line : Nat
  column : Nat
deriving DecidableEq

/-- A Python `re` match object, reduced to the two observations the
code makes of it: `match.group()` and `match.end()`.  A real regex
match anchored at `column` always satisfies `column ≤ endPos`. -/
structure ReMatch where
  text : String
  endPos : Nat
deriving DecidableEq

/-- `ReStream.advance_line`: take the next line from the stream;
`none` models the propagated `StopIteration`. -/
def ReStream.advance_line (s : ReStream) : Option ReStream :=
  match s.stream with
  | [] => none
  | l :: rest => some ⟨rest, l, s.line + 1, 0⟩

/-- `ReStream.assure_line`: advance to the next line when the current
line is exhausted. -/
def ReStream.assure_line (s : ReStream) : Option ReStream :=
  if s.column = s.current.length then s.advance_line else some s

/-- `ReStream.produce`: build a token for the given match and advance
the column to `match.end()`. -/
def ReStream.produce (s : ReStream) (symbol : GSym) (m : ReMatch) (channel : Int) :
    Token × ReStream :=
  (⟨symbol, some m.text, channel,
     some (mkTextSpan s.line s.column s.line m.endPos)⟩,
   { s with column := m.endPos })

/-- `ReStream.rewind`: assert that the token's span ends at the current
position, then reset the column to the span's start column.  `none`
models the assertion failing (or the token having no span). -/
def ReStream.rewind (s : ReStream) (tok : Token) : Option ReStream :=
  match tok.span with
  | none => none
  | some sp =>
      if (sp.endLine, sp.endColumn) = (s.line, s.column) then
        some { s with column := sp.startColumn }
      else none

/-- `ReStream.produce_eof`: a synthetic EOF token on `CHANNEL_ALL` with
an empty span at the current position. -/
def ReStream.produce_eof (s : ReStream) (symbol : GSym) : Token :=
  ⟨symbol, none, CHANNEL_ALL, some (mkTextSpan s.line s.column s.line s.column)⟩

/-- C5: `TextSpan(a,b,c,d)` and `TextSpan(c,d,a,b)` construct to equal
spans, and every constructed span satisfies `start ≤ end`
lexicographically. -/
theorem textspan_normalizes (a b c d : Nat) :
    mkTextSpan a b c d = mkTextSpan c d a b ∧
    pairLe (mkTextSpan a b c d).startPos (mkTextSpan a b c d).endPos := by
  constructor
  · unfold mkTextSpan
    rcases Nat.lt_trichotomy a c with h | h | h
    · rw [if_neg, if_pos] <;> simp [pairLt] <;> omega
    · subst h
      rcases Nat.lt_trichotomy b d with h2 | h2 | h2
      · rw [if_neg, if_pos] <;> simp [pairLt] <;> omega
      · subst h2; rfl
      · rw [if_pos, if_neg] <;> simp [pairLt] <;> omega
    · rw [if_pos, if_neg] <;> simp [pairLt] <;> omega
  · unfold mkTextSpan
    split
    · rename_i h
      simp only [pairLt] at h
      simp only [TextSpan.startPos, TextSpan.endPos, pairLe]
      omega
    · rename_i h
      simp only [pairLt] at h
      simp only [TextSpan.startPos, TextSpan.endPos, pairLe]
      omega

/-- C9: token equality compares exactly the `t` (type) and `text`
fields; the `channel` and `span` fields never influence it. -/
theorem token_eq_ignores_channel_span (a b : Token) :
    tokenEq a b ↔ (a.t = b.t ∧ a.text = b.text) := by
  unfold tokenEq
  constructor
  · intro h
    exact ⟨congrArg Prod.fst h, congrArg Prod.snd h⟩
  · intro ⟨h1, h2⟩
    rw [h1, h2]

/-- C10: a token returned by `ReStream.produce` always has a
single-line span whose end is the stream position immediately after
the call, and `ReStream.rewind` on that token succeeds and restores
the stream to the exact state it had before the `produce` call,
changing only the column.  The hypothesis `s.column ≤ m.endPos` is the
anchoring property of `regex.match(current, column)`. -/
theorem produce_span_and_rewind (s : ReStream) (symbol : GSym) (m : ReMatch)
    (channel : Int) (h : s.column ≤ m.endPos) :
    ∃ sp : TextSpan,
      (s.produce symbol m channel).1.span = some sp ∧
      sp.startLine = sp.endLine ∧
      (sp.endLine, sp.endColumn) =
        ((s.produce symbol m channel).2.line, (s.produce symbol m channel).2.column) ∧
      (s.produce symbol m channel).2.rewind (s.produce symbol m channel).1 = some s := by
  have hspan : mkTextSpan s.line s.column s.line m.endPos =
      ⟨s.line, s.column, s.line, m.endPos⟩ := by
    unfold mkTextSpan
    rw [if_neg]
    simp only [pairLt]
    omega
  refine ⟨⟨s.line, s.column, s.line, m.endPos⟩, ?_, rfl, ?_, ?_⟩
  · simp [ReStream.produce, hspan]
  · simp [ReStream.produce]
  · simp [ReStream.produce, ReStream.rewind, hspan]

/-- Witness for C10 at a concrete stream and match. -/
theorem produce_span_and_rewind_witness :
    ∃ sp : TextSpan,
      ((⟨[], "abc", 1, 0⟩ : ReStream).produce (GSym.term 0) ⟨"ab", 2⟩ 0).1.span = some sp ∧
      sp.startLine = sp.endLine ∧
      (sp.endLine, sp.endColumn) =
        (((⟨[], "abc", 1, 0⟩ : ReStream).produce (GSym.term 0) ⟨"ab", 2⟩ 0).2.line,
         ((⟨[], "abc", 1, 0⟩ : ReStream).produce (GSym.term 0) ⟨"ab", 2⟩ 0).2.column) ∧
      ((⟨[], "abc", 1, 0⟩ : ReStream).produce (GSym.term 0) ⟨"ab", 2⟩ 0).2.rewind
        (((⟨[], "abc", 1, 0⟩ : ReStream).produce (GSym.term 0) ⟨"ab", 2⟩ 0).1) =
        some ⟨[], "abc", 1, 0⟩ :=
  produce_span_and_rewind ⟨[], "abc", 1, 0⟩ (GSym.term 0) ⟨"ab", 2⟩ 0 (by decide)

/-- Storage descriptors (`jeff65/gold/storage.py`): `ImmediateStorage`
and `AbsoluteStorage`.  The Python `type(s) is ...` checks in `asm.py`
are exact class tests, modelled by matching on the constructor. -/
inductive Storage where
  | immediate (value width : Nat)
  | absolute (address width : Nat)
deriving DecidableEq

/-- Outcome of one `AssembleWithRelocations` handler.  `ok` carries the
bytes of the `AsmRun`; `assemblyError` models `raise AssemblyError(msg)`;
`notImplementedError` models `raise NotImplementedError()`;
`structError` models `struct.error` from `struct.pack` when an argument
does not fit its format code. -/
inductive AsmResult where
  | ok (data : List Nat)
  | assemblyError (msg : String)
  | notImplementedError
  | structError
deriving DecidableEq

/-- `struct.pack("<BB", b1, b2)`: two unsigned bytes. -/
def packBB (b1 b2 : Nat) : AsmResult :=
  if b1 ≤ 255 ∧ b2 ≤ 255 then .ok [b1, b2] else .structError

/-- `struct.pack("<BH", b, h)`: an unsigned byte followed by a
little-endian unsigned 16-bit word. -/
def packBH (b h : Nat) : AsmResult :=
  if b ≤ 255 ∧ h ≤ 65535 then .ok [b, h % 256, h / 256] else .structError

/-- `AssembleWithRelocations.enter_lda`. -/
def enter_lda (s : Storage) : AsmResult :=
  match s with
  | .immediate v w =>
      if w ≠ 1 then
        .assemblyError ("LDA loads one byte (" ++ toString w ++ " given)")
      else packBB 0xa9 v
  | _ => .notImplementedError

/-- `AssembleWithRelocations.enter_sta`. -/
def enter_sta (s : Storage) : AsmResult :=
  match s with
  | .absolute a w =>
      if w ≠ 1 then
        .assemblyError ("STA stores one byte (" ++ toString w ++ " given)")
      else packBH 0x8d a
  | _ => .notImplementedError

/-- `AssembleWithRelocations.enter_jmp`. -/
def enter_jmp (s : Storage) : AsmResult :=
  match s with
  | .absolute a _ => packBH 0x4c a
  | _ => .notImplementedError

/-- `AssembleWithRelocations.enter_rts`. -/
def enter_rts : AsmResult := .ok [0x60]

/-- The four opcodes `AssembleWithRelocations` supports. -/
inductive Opcode where
  | lda | sta | jmp | rts
deriving DecidableEq

/-- Dispatch of `AssembleWithRelocations` on a node's kind; the
storage argument is the node's `attrs['storage']` (ignored by
`enter_rts`, which reads no attributes). -/
def assembleWithRelocations (op : Opcode) (s : Storage) : AsmResult :=
  match op with
  | .lda => enter_lda s
  | .sta => enter_sta s
  | .jmp => enter_jmp s
  | .rts => enter_rts

/-- The operand-validity condition claimed by the spec: lda takes
Immediate storage of width 1, sta Absolute storage of width 1, jmp
Absolute storage of any width, rts no operand. -/
def specValidOperand : Opcode → Storage → Prop
  | .lda, .immediate _ w => w = 1
  | .lda, .absolute _ _ => False
  | .sta, .absolute _ w => w = 1
  | .sta, .immediate _ _ => False
  | .jmp, .absolute _ _ => True
  | .jmp, .immediate _ _ => False
  | .rts, _ => True

/-- Whether the storage kind is the one the opcode's handler checks
for with `type(s) is ...`. -/
def kindMatches : Opcode → Storage → Bool
  | .lda, .immediate _ _ => true
  | .lda, .absolute _ _ => false
  | .sta, .absolute _ _ => true
  | .sta, .immediate _ _ => false
  | .jmp, .absolute _ _ => true
  | .jmp, .immediate _ _ => false
  | .rts, _ => true

/-- Values fit the byte/word format codes `struct.pack` is given; an
invariant of storage descriptors produced upstream. -/
def inRange : Storage → Prop
  | .immediate v _ => v ≤ 255
  | .absolute a _ => a ≤ 65535

/-- C2 counterexample: `enter_lda` on an Absolute operand (wrong
storage kind) raises `NotImplementedError`, not an `AssemblyError` as
the claim states. -/
theorem assemble_wrong_kind_not_assembly_error :
    assembleWithRelocations .lda (.absolute 0 1) = .notImplementedError ∧
    ¬ ∃ msg, assembleWithRelocations .lda (.absolute 0 1) = .assemblyError msg := by
  constructor
  · rfl
  · intro ⟨msg, h⟩
    simp [assembleWithRelocations, enter_lda] at h

instance (s : Storage) : Decidable (inRange s) := by
  cases s <;> dsimp [inRange] <;> infer_instance

instance (op : Opcode) (s : Storage) : Decidable (specValidOperand op s) := by
  cases op <;> cases s <;> dsimp [specValidOperand] <;> infer_instance

/-- Whether an `AsmResult` is a successful emission. -/
def AsmResult.isOk : AsmResult → Bool
  | .ok _ => true
  | _ => false

/-- C2 amended: for in-range operands, emission succeeds exactly when
the operand is valid; a supported storage kind with the wrong width
raises `AssemblyError` naming the opcode and the observed width; a
mismatched storage kind raises `NotImplementedError` (not
`AssemblyError`). -/
theorem assemble_error_classification (op : Opcode) (s : Storage) (hr : inRange s) :
    ((assembleWithRelocations op s).isOk = true ↔ specValidOperand op s) ∧
    (∀ v w, op = .lda → s = .immediate v w → w ≠ 1 →
      assembleWithRelocations op s =
        .assemblyError ("LDA loads one byte (" ++ toString w ++ " given)")) ∧
    (∀ a w, op = .sta → s = .absolute a w → w ≠ 1 →
      assembleWithRelocations op s =
        .assemblyError ("STA stores one byte (" ++ toString w ++ " given)")) ∧
    (kindMatches op s = false → assembleWithRelocations op s = .notImplementedError) := by
  cases op <;> cases s <;> rename_i x w <;>
    simp only [inRange] at hr <;>
    refine ⟨?_, ?_, ?_, ?_⟩ <;>
    first
    | (intro v' w' hop hs
       first
       | exact Opcode.noConfusion hop
       | exact Storage.noConfusion hs
       | (injection hs with h1 h2
          intro hw
          subst h1; subst h2
          simp [assembleWithRelocations, enter_lda, enter_sta, hw]))
    | (intro hk
       first
       | rfl
       | simp [kindMatches] at hk)
    | (by_cases hw : w = 1 <;>
       simp [assembleWithRelocations, enter_lda, enter_sta, enter_jmp, enter_rts,
         packBB, packBH, AsmResult.isOk, specValidOperand, hw, hr])

/-- Witness for C2 at concrete inputs: a width-2 immediate lda raises
the width error. -/
theorem assemble_error_classification_witness :
    assembleWithRelocations .lda (.immediate 7 2) =
      .assemblyError ("LDA loads one byte (" ++ toString 2 ++ " given)") :=
  (assemble_error_classification .lda (.immediate 7 2) (by decide)).2.1 7 2 rfl rfl
    (by decide)

/-- C8: the exact little-endian byte sequences: `lda` emits
`[0xA9, value]`, `sta` emits `[0x8D, lo, hi]`, `jmp` emits
`[0x4C, lo, hi]` for any width, `rts` emits `[0x60]`; in particular
`sta` of `AbsoluteStorage(0xD020, 1)` emits `8D 20 D0`. -/
theorem assemble_emitted_bytes (v a w : Nat) (s : Storage)
    (hv : v ≤ 255) (ha : a ≤ 65535) :
    assembleWithRelocations .lda (.immediate v 1) = .ok [0xA9, v] ∧
    assembleWithRelocations .sta (.absolute a 1) = .ok [0x8D, a % 256, a / 256] ∧
    assembleWithRelocations .jmp (.absolute a w) = .ok [0x4C, a % 256, a / 256] ∧
    assembleWithRelocations .rts s = .ok [0x60] ∧
    assembleWithRelocations .sta (.absolute 0xD020 1) = .ok [0x8D, 0x20, 0xD0] := by
  refine ⟨?_, ?_, ?_, rfl, by decide⟩ <;>
    simp [assembleWithRelocations, enter_lda, enter_sta, enter_jmp, packBB, packBH,
      hv, ha]

/-- Witness for C8 at concrete inputs, including `jmp` of
`AbsoluteStorage(0x1000, 2)` emitting `4C 00 10`. -/
theorem assemble_emitted_bytes_witness :
    assembleWithRelocations .lda (.immediate 42 1) = .ok [0xA9, 42] ∧
    assembleWithRelocations .sta (.absolute 0x1000 1) =
      .ok [0x8D, 0x1000 % 256, 0x1000 / 256] ∧
    assembleWithRelocations .jmp (.absolute 0x1000 2) =
      .ok [0x4C, 0x1000 % 256, 0x1000 / 256] ∧
    assembleWithRelocations .rts (.immediate 0 0) = .ok [0x60] ∧
    assembleWithRelocations .sta (.absolute 0xD020 1) = .ok [0x8D, 0x20, 0xD0] :=
  assemble_emitted_bytes 42 0x1000 2 (.immediate 0 0) (by decide) (by decide)

/-- A Python value as stored in a scope's `known_constants` attribute
map: `None`, an integer, a string, or an AST node (kind plus the
`name` attribute, which is all `ResolveConstants` reads). -/
inductive PyVal where
  | pnone
  | pint (n : Int)
  | pstr (s : String)
  | pnode (kind : String) (name : String)
deriving DecidableEq

/-- Python truthiness for the values above; `bool(AstNode)` is `True`
because the class defines neither `__bool__` nor `__len__`. -/
def truthy : PyVal → Bool
  | .pnone => false
  | .pint n => n ≠ 0
  | .pstr s => s ≠ ""
  | .pnode _ _ => true

/-- A scope, reduced to its `known_constants` map
(`scope.get_attr_default('known_constants', {})`), as an association
list with unique keys. -/
def KnownConstants := List (String × PyVal)

/-- `name in known_constants` / `known_constants[name]` on one scope. -/
def findConstant (scope : KnownConstants) (name : String) : Option PyVal :=
  match scope with
  | [] => none
  | (k, v) :: rest => if k = name then some v else findConstant rest name

/-- `ScopedPass.look_up_constant`: walk the scope stack innermost
first (`reversed(self.scopes)`); return the first binding found, or
`None`.  The stack is kept in Python order: head outermost, last
element the top of the stack. -/
def look_up_constant (scopes : List KnownConstants) (name : String) : PyVal :=
  go scopes.reverse name
where
  /-- The `for scope in reversed(self.scopes)` loop. -/
  go : List KnownConstants → String → PyVal
    | [], _ => .pnone
    | scope :: rest, name =>
        match findConstant scope name with
        | some v => v
        | none => go rest name

/-- The `name` attribute of a node (`node.attrs['name']`); only
meaningful on `pnode` values. -/
def pyName : PyVal → String
  | .pnode _ n => n
  | _ => ""

/-- `ResolveConstants.exit_identifier`: look the identifier's name up;
`if not value: return node` (note: Python truthiness, not an absence
test), otherwise return the bound value. -/
def exit_identifier (scopes : List KnownConstants) (node : PyVal) : PyVal :=
  let value := look_up_constant scopes (pyName node)
  if truthy value then value else node

/-- C3 counterexample: with the constant binding `k = 0` in scope, the
identifier node named `k` is NOT replaced by the bound value `0`: the
`if not value` truthiness test treats the falsy-but-present value as
"not found" and returns the identifier unchanged. -/
theorem resolve_constants_falsy_not_replaced :
    look_up_constant [[("k", PyVal.pint 0)]] "k" = PyVal.pint 0 ∧
    exit_identifier [[("k", PyVal.pint 0)]] (PyVal.pnode "identifier" "k") =
      PyVal.pnode "identifier" "k" ∧
    PyVal.pnode "identifier" "k" ≠ PyVal.pint 0 := by
  refine ⟨rfl, rfl, ?_⟩
  intro h
  exact PyVal.noConfusion h

/-- C3 amended: `exit_identifier` replaces an identifier with the
innermost bound value whenever that value is truthy; when the lookup
result is falsy — in particular when no enclosing scope binds the name
at all, so the lookup returns `None` — the identifier is returned
unchanged. -/
theorem resolve_constants_replacement (scopes : List KnownConstants)
    (node : PyVal) (kind name : String) (hnode : node = .pnode kind name) :
    (truthy (look_up_constant scopes name) = true →
      exit_identifier scopes node = look_up_constant scopes name) ∧
    (truthy (look_up_constant scopes name) = false →
      exit_identifier scopes node = node) ∧
    (∀ inner, findConstant inner name = some (look_up_constant (scopes ++ [inner]) name) ∨
      (findConstant inner name = none ∧
        look_up_constant (scopes ++ [inner]) name = look_up_constant scopes name)) ∧
    ((∀ scope ∈ scopes, findConstant scope name = none) →
      look_up_constant scopes name = .pnone ∧ exit_identifier scopes node = node) := by
  subst hnode
  have hname : pyName (.pnode kind name) = name := rfl
  refine ⟨?_, ?_, ?_, ?_⟩
  · intro ht
    simp [exit_identifier, hname, ht]
  · intro hf
    simp [exit_identifier, hname, hf]
  · intro inner
    rw [look_up_constant, List.reverse_append]
    simp only [List.reverse_singleton, List.singleton_append]
    rw [look_up_constant.go]
    cases h : findConstant inner name with
    | some v => exact Or.inl (by simp)
    | none => exact Or.inr ⟨rfl, by rw [look_up_constant]⟩
  · intro habs
    have hlook : look_up_constant scopes name = .pnone := by
      rw [look_up_constant]
      have hrev : ∀ scope ∈ scopes.reverse, findConstant scope name = none :=
        fun scope hs => habs scope (List.mem_reverse.mp hs)
      generalize scopes.reverse = l at hrev
      induction l with
      | nil => rfl
      | cons hd tl ih =>
          rw [look_up_constant.go]
          rw [hrev hd (List.mem_cons_self hd tl)]
          exact ih (fun scope hs => hrev scope (List.mem_cons_of_mem hd hs))
    refine ⟨hlook, ?_⟩
    simp [exit_identifier, hname, hlook, truthy]

/-- Witness for C3 at a concrete scope stack: a truthy bound node
value is substituted for the identifier. -/
theorem resolve_constants_replacement_witness :
    exit_identifier [[("k", PyVal.pint 42)]] (PyVal.pnode "identifier" "k") =
      look_up_constant [[("k", PyVal.pint 42)]] "k" :=
  (resolve_constants_replacement [[("k", PyVal.pint 42)]]
    (PyVal.pnode "identifier" "k") "identifier" "k" rfl).1 (by decide)

/-- A grammar rule (`parsing.py`, `@attr.s` class `Rule`): left-hand
side, right-hand side, optional precedence, right-associativity flag,
lexer mode, and the LR-item dot position (`None` when the rule is not
an item). -/
structure GRule where
  lhs : GSym
  rhs : List GSym
  prec : Option Nat
  rassoc : Bool
  mode : Nat
  pointer : Option Nat
deriving DecidableEq

/-- An entry of the action/goto table.  In Python shifts are
`('shift', None, t)` triples, reduces `('reduce', lhs, n)` triples,
accept `('accept', None, None)`, and gotos bare state numbers. -/
inductive PAction where
  | shift (target : Nat)
  | reduce (lhs : GSym) (len : Nat)
  | accept
  | goto (target : Nat)
deriving DecidableEq

/-- The action/goto table `agtable`: a Python dict from
`(state, symbol)` keys to actions, modelled as an association list
with unique keys in insertion order. -/
abbrev AGTable := List ((Nat × GSym) × PAction)

/-- Dict lookup `agtable[(state, symbol)]`. -/
def agLookup (t : AGTable) (k : Nat × GSym) : Option PAction :=
  match t with
  | [] => none
  | (k', a) :: rest => if k' = k then some a else agLookup rest k

/-- Dict assignment `agtable[(state, symbol)] = action`: replace in
place if the key is present, append otherwise. -/
def agInsert (t : AGTable) (k : Nat × GSym) (a : PAction) : AGTable :=
  match t with
  | [] => [(k, a)]
  | (k', a') :: rest =>
      if k' = k then (k, a) :: rest else (k', a') :: agInsert rest k a

theorem agLookup_agInsert_self (t : AGTable) (k : Nat × GSym) (a : PAction) :
    agLookup (agInsert t k a) k = some a := by
  induction t with
  | nil => simp [agInsert, agLookup]
  | cons hd tl ih =>
      obtain ⟨k', a'⟩ := hd
      by_cases h : k' = k
      · simp [agInsert, h, agLookup]
      · simp only [agInsert, h, if_false]
        rw [agLookup, if_neg h]
        exact ih

/-- The data `Parser.__call__` puts into the `ParseError` it raises on
a missing table entry: the offending lookahead (`Got {lookahead} but
expected one of:`) and the listed symbols. -/
structure ParseErr where
  lookahead : Token
  expected : List GSym
deriving DecidableEq

/-- The action lookup step of `Parser.__call__`: fetch
`agtable[(top_state, lookahead.t)]`; on `KeyError`, build a
`ParseError` listing every symbol `token` such that `(state, token)`
is a key of `agtable` with `state == set_stack[-1]`. -/
def parserAction (agtable : AGTable) (top : Nat) (lookahead : Token) :
    Except ParseErr PAction :=
  match agLookup agtable (top, lookahead.t) with
  | some a => .ok a
  | none =>
      .error ⟨lookahead,
        (agtable.filter (fun e => e.1.1 = top)).map (fun e => e.1.2)⟩

/-- What "tokens acceptable from the current state" means: only
terminal symbols are token types the lexer can deliver, and such a
token is acceptable exactly when the state has a table entry for it. -/
def specAcceptableToken (agtable : AGTable) (top : Nat) (σ : GSym) : Prop :=
  isTerminal σ = true ∧ agLookup agtable (top, σ) ≠ none

/-- A tiny concrete action/goto table: state 0 shifts terminal 0 and
has a goto on nonterminal 5. -/
def agtableX : AGTable :=
  [((0, GSym.term 0), PAction.shift 1), ((0, GSym.nonterm 5), PAction.goto 2)]

/-- C7 counterexample: on a missing entry the raised `ParseError` does
list the offending lookahead, but the listed symbols are all agtable
keys of the current state — including the goto nonterminal 5, which is
not an acceptable token (it is not a terminal, and a hypothetical
token carrying it would make the action unpacking crash, not parse).
The message therefore does not list exactly the acceptable tokens. -/
theorem parse_error_lists_goto_symbols :
    parserAction agtableX 0 ⟨GSym.term 1, some "x", 0, none⟩ =
      .error ⟨⟨GSym.term 1, some "x", 0, none⟩, [GSym.term 0, GSym.nonterm 5]⟩ ∧
    GSym.nonterm 5 ∈ [GSym.term 0, GSym.nonterm 5] ∧
    ¬ specAcceptableToken agtableX 0 (GSym.nonterm 5) := by
  refine ⟨rfl, by simp, ?_⟩
  intro ⟨h, _⟩
  simp [isTerminal] at h

/-- C7 amended: whenever the action lookup finds no entry for
`(top state, lookahead type)`, the parser raises `ParseError` carrying
the offending lookahead, and the listed symbols are exactly those with
an agtable entry for the current state — terminals and goto
nonterminals alike (a superset of the acceptable tokens). -/
theorem parse_error_reports_state_keys (agtable : AGTable) (top : Nat)
    (lookahead : Token) (h : agLookup agtable (top, lookahead.t) = none) :
    ∃ err, parserAction agtable top lookahead = .error err ∧
      err.lookahead = lookahead ∧
      ∀ σ, σ ∈ err.expected ↔ ∃ a, ((top, σ), a) ∈ agtable := by
  refine ⟨⟨lookahead, (agtable.filter (fun e => e.1.1 = top)).map (fun e => e.1.2)⟩,
    ?_, rfl, ?_⟩
  · rw [parserAction, h]
  · intro σ
    constructor
    · intro hm
      rcases List.mem_map.mp hm with ⟨e, he, hσ⟩
      rcases List.mem_filter.mp he with ⟨hmem, htop⟩
      refine ⟨e.2, ?_⟩
      have : e = ((top, σ), e.2) := by
        obtain ⟨⟨s, y⟩, a⟩ := e
        simp only [decide_eq_true_eq] at htop
        simp only at hσ
        simp [htop, hσ]
      rwa [this] at hmem
    · intro ⟨a, ha⟩
      refine List.mem_map.mpr ⟨((top, σ), a), List.mem_filter.mpr ⟨ha, by simp⟩, rfl⟩

/-- Witness for C7 at the concrete table `agtableX`. -/
theorem parse_error_reports_state_keys_witness :
    ∃ err, parserAction agtableX 0 ⟨GSym.term 3, none, 0, none⟩ = .error err ∧
      err.lookahead = ⟨GSym.term 3, none, 0, none⟩ ∧
      ∀ σ, σ ∈ err.expected ↔ ∃ a, ((0, σ), a) ∈ agtableX :=
  parse_error_reports_state_keys agtableX 0 ⟨GSym.term 3, none, 0, none⟩ (by decide)

/-- One step of the reduce-installation loop of `Grammar.build_parser`
(the body run for a single `(k, symbol)` pair of a final set's merged
followset).  `itemsets` are the translation table's item sets (lists
of rules-with-pointer), `finalRule` is `finalset_rules[k]`.  A
`.error` models the `assert` hard failures; `.ok` returns the table,
unchanged when the shift is kept.  An existing entry that is not a
shift cannot arise here (the symbol comes from a followset of
terminals, whose only prior entries are shifts); Python would crash
unpacking it, modelled as an error. -/
def installReduce (itemsets : List (List GRule)) (startSymbol : GSym)
    (endSymbols : List GSym) (finalRule : GRule) (agtable : AGTable)
    (k : Nat) (symbol : GSym) : Except String AGTable :=
  let proceed : Except String AGTable :=
    if finalRule.lhs = startSymbol ∧ symbol ∈ endSymbols then
      .ok (agInsert agtable (k, symbol) .accept)
    else
      .ok (agInsert agtable (k, symbol) (.reduce finalRule.lhs finalRule.rhs.length))
  match agLookup agtable (k, symbol) with
  | none => proceed
  | some (.shift shiftIndex) =>
      match (itemsets.getD shiftIndex []).filter (fun i => 0 < i.pointer.getD 0) with
      | [shiftRule] =>
          match shiftRule.prec, finalRule.prec with
          | some sp, some rp =>
              if sp > rp ∨ (shiftRule.rassoc ∧ sp = rp) then .ok agtable
              else proceed
          | _, _ => .error "shift/reduce: a rule is missing a precedence"
      | _ => .error "shift/reduce (GENERATOR BUG)"
  | some _ => .error "non-shift entry in action part of table"

/-- C4: when reduce installation meets an existing shift for
`(k, symbol)` whose target state has a single partially-applied rule,
then: if either that rule or the reducing rule lacks a precedence,
table construction fails; when both carry one, the shift is kept (the
table is unchanged) if and only if the shift rule's precedence is
strictly greater, or the precedences are equal and the shift rule is
right-associative; otherwise the reduce entry is installed.  The
hypothesis `hna` excludes the accept state, where what is proposed is
an accept rather than a reduce. -/
theorem shift_reduce_resolution (itemsets : List (List GRule))
    (startSymbol : GSym) (endSymbols : List GSym) (finalRule : GRule)
    (agtable : AGTable) (k : Nat) (symbol : GSym) (t : Nat) (shiftRule : GRule)
    (hshift : agLookup agtable (k, symbol) = some (.shift t))
    (hpart : (itemsets.getD t []).filter (fun i => 0 < i.pointer.getD 0) = [shiftRule])
    (hna : ¬(finalRule.lhs = startSymbol ∧ symbol ∈ endSymbols)) :
    ((shiftRule.prec = none ∨ finalRule.prec = none) →
      ∃ e, installReduce itemsets startSymbol endSymbols finalRule agtable k symbol =
        .error e) ∧
    (∀ sp rp, shiftRule.prec = some sp → finalRule.prec = some rp →
      ((sp > rp ∨ (shiftRule.rassoc = true ∧ sp = rp)) →
        installReduce itemsets startSymbol endSymbols finalRule agtable k symbol =
          .ok agtable) ∧
      (¬(sp > rp ∨ (shiftRule.rassoc = true ∧ sp = rp)) →
        installReduce itemsets startSymbol endSymbols finalRule agtable k symbol =
          .ok (agInsert agtable (k, symbol)
            (.reduce finalRule.lhs finalRule.rhs.length)) ∧
        agLookup (agInsert agtable (k, symbol)
            (.reduce finalRule.lhs finalRule.rhs.length)) (k, symbol) =
          some (.reduce finalRule.lhs finalRule.rhs.length))) := by
  constructor
  · intro hmiss
    rw [installReduce]
    simp only [hshift, hpart]
    rcases hmiss with h | h <;> rw [h]
    · exact ⟨"shift/reduce: a rule is missing a precedence", rfl⟩
    · cases hsp : shiftRule.prec <;>
        exact ⟨"shift/reduce: a rule is missing a precedence", rfl⟩
  · intro sp rp hsp hrp
    constructor
    · intro hkeep
      rw [installReduce]
      simp only [hshift, hpart, hsp, hrp]
      rw [if_pos hkeep]
    · intro hlose
      constructor
      · rw [installReduce]
        simp only [hshift, hpart, hsp, hrp]
        rw [if_neg hlose, if_neg hna]
      · exact agLookup_agInsert_self agtable (k, symbol)
          (.reduce finalRule.lhs finalRule.rhs.length)

/-- A one-rule item set used as the shift target state in the C4
witness: the rule `nonterm 1 → term 0 · term 1` at pointer 1, with
precedence 5, left-associative. -/
def shiftRuleX : GRule :=
  ⟨GSym.nonterm 1, [GSym.term 0, GSym.term 1], some 5, false, 0, some 1⟩

/-- The reducing rule used in the C4 witness: precedence 7. -/
def finalRuleX : GRule :=
  ⟨GSym.nonterm 2, [GSym.term 0], some 7, false, 0, none⟩

/-- Witness for C4 at concrete inputs: the reducing rule has higher
precedence, so the reduce entry overwrites the shift. -/
theorem shift_reduce_resolution_witness :
    installReduce [[], [shiftRuleX]] (GSym.nonterm 0) [GSym.term 9] finalRuleX
        agtableX 0 (GSym.term 0) =
      .ok (agInsert agtableX (0, GSym.term 0)
        (.reduce finalRuleX.lhs finalRuleX.rhs.length)) ∧
    agLookup (agInsert agtableX (0, GSym.term 0)
        (.reduce finalRuleX.lhs finalRuleX.rhs.length)) (0, GSym.term 0) =
      some (.reduce finalRuleX.lhs finalRuleX.rhs.length) :=
  ((shift_reduce_resolution [[], [shiftRuleX]] (GSym.nonterm 0) [GSym.term 9]
      finalRuleX agtableX 0 (GSym.term 0) 1 shiftRuleX (by decide) (by decide)
      (by decide)).2 5 7 rfl rfl).2 (by decide)

/-- A lexer rule after `Lexer.__init__`: a compiled pattern (reduced
to its matching behaviour `current line → column → match`), the token
type, and the channel. -/
structure LexRule where
  pat : String → Nat → Option ReMatch
  tt : GSym
  channel : Int

/-- The lexer callable: the EOF token type and the per-mode rule
lists (`self.mode_rules`). -/
structure Lexer where
  eof : GSym
  modeRules : Nat → List LexRule

/-- Result of `Lexer.__call__`: a token, the `assert False, "no
match!"` failure (an `AssertionError`), or a `StopIteration` escaping
from `ReStream.match` when the stream runs out while skipping
exhausted lines mid-loop. -/
inductive LexResult where
  | tok (t : Token)
  | failNoMatch
  | stopIteration
deriving DecidableEq

/-- The `for regex, tt, channel in self.mode_rules[mode]` loop of
`Lexer.__call__`: each iteration runs `stream.match` (an
`assure_line` followed by an anchored regex match) and produces on the
first success; falling off the loop hits `assert False`. -/
def lexerGo : List LexRule → ReStream → LexResult × ReStream
  | [], s => (.failNoMatch, s)
  | r :: rest, s =>
      match s.assure_line with
      | none => (.stopIteration, s)
      | some s2 =>
          match r.pat s2.current s2.column with
          | some m =>
              let (tok, s3) := s2.produce r.tt m r.channel
              (.tok tok, s3)
          | none => lexerGo rest s2

/-- `Lexer.__call__`: assure a line first — a `StopIteration` here is
caught and turned into the EOF token — then try the mode's rules in
listed order. -/
def lexerCall (lx : Lexer) (s : ReStream) (mode : Nat) : LexResult × ReStream :=
  match s.assure_line with
  | none => (.tok (s.produce_eof lx.eof), s)
  | some s1 => lexerGo (lx.modeRules mode) s1

/-- A lexer whose single rule never matches, and a stream that still
holds unconsumed input (`"x"` at column 0). -/
def lexerX : Lexer :=
  ⟨GSym.term 99, fun _ => [⟨fun _ _ => none, GSym.term 0, CHANNEL_DEFAULT⟩]⟩

/-- The unconsumed stream for the C6 failing input. -/
def streamX : ReStream := ⟨[], "x", 1, 0⟩

/-- C6: evaluating `Lexer.__call__` at the failing input: the stream
is not exhausted (`assure_line` succeeds without advancing), no rule
matches, and the call falls into `assert False, "no match!"` — an
`AssertionError`, not the `LexError` the specification promises. -/
theorem lexer_no_match_is_assertion_failure :
    streamX.assure_line = some streamX ∧
    lexerCall lexerX streamX 0 = (.failNoMatch, streamX) := by
  constructor <;> rfl

/-- A grammar as `Grammar.__init__` stores it: start symbol, end
symbols, rule list. -/
structure CFG where
  startSymbol : GSym
  endSymbols : Finset GSym
  rules : List GRule

/-- A first/follow map (`firstsets` / `followsets` dict).  The Python
dicts are pre-populated for exactly the grammar's symbols and only
ever read at grammar symbols, so a total map is a faithful model. -/
abbrev FMap := GSym → Finset GSym

/-- `m[s].update(add)`: grow the set stored at one key. -/
def fmUpdate (m : FMap) (s : GSym) (add : Finset GSym) : FMap :=
  fun x => if x = s then m s ∪ add else m x

/-- The firstsets pre-population: identity firstsets for terminals
(`{sym[1]}` for an extended symbol is its underlying terminal, here
the symbol itself), empty sets for nonterminals. -/
def firstInit : FMap :=
  fun s => if isTerminal s then {s} else ∅

/-- The first loop of `build_firstsets` (rules 1 and 2): empty rules
contribute EMPTY, rules starting with a terminal contribute that
terminal's firstset; rules starting with a nonterminal are collected
(in order) as `nzrules` for rule 3. -/
def firstBase : List GRule → FMap → FMap × List GRule
  | [], m => (m, [])
  | r :: rest, m =>
      match r.rhs with
      | [] => firstBase rest (fmUpdate m r.lhs {GSym.empty})
      | s :: _ =>
          if isTerminal s then firstBase rest (fmUpdate m r.lhs (m s))
          else
            let res := firstBase rest m
            (res.1, r :: res.2)

/-- The inner `for symbol in rule.rhs` fold of rule 3: add
`First(symbol) - {EMPTY}` and continue while EMPTY is present, add
`First(symbol)` and stop otherwise; the for-else adds EMPTY when every
symbol was ε-derivable. -/
def firstRuleStep : FMap → GSym → List GSym → FMap
  | m, lhs, [] => fmUpdate m lhs {GSym.empty}
  | m, lhs, s :: rest =>
      if GSym.empty ∉ m s then fmUpdate m lhs (m s)
      else firstRuleStep (fmUpdate m lhs (m s \ {GSym.empty})) lhs rest

/-- One pass of the rule-3 fixed-point loop over `nzrules`, returning
the updated map and the `updated` flag (`len(...) > old_len`). -/
def firstPass : List GRule → FMap → FMap × Bool
  | [], m => (m, false)
  | r :: rest, m =>
      let m2 := firstRuleStep m r.lhs r.rhs
      let res := firstPass rest m2
      (res.1, ((m r.lhs).card < (m2 r.lhs).card) || res.2)

/-- The `while updated` loop of `build_firstsets`, with fuel. -/
def firstLoop : Nat → List GRule → FMap → FMap
  | 0, _, m => m
  | fuel + 1, nz, m =>
      let res := firstPass nz m
      if res.2 then firstLoop fuel nz res.1 else res.1

/-- `Grammar.build_firstsets`. -/
def build_firstsets (g : CFG) (fuel : Nat) : FMap :=
  let res := firstBase g.rules firstInit
  firstLoop fuel res.2 res.1

/-- The followsets pre-population: the end symbols for the start
symbol (`{s[1] for s in end_symbols}` unwraps extended end symbols to
their underlying terminals, the identity here), empty otherwise. -/
def followInit (g : CFG) : FMap :=
  fun s => if s = g.startSymbol then g.endSymbols else ∅

/-- The `for k in range(len(rule.rhs) - 1)` loop of the first
followsets pass: for a rule `R → α D b β` with `D` a nonterminal, add
`First(b)` — the firstset of the single next symbol, in full — to
`Follow(D)`. -/
def followPreRule (first : FMap) : List GSym → FMap → FMap
  | [], m => m
  | [_], m => m
  | a :: b :: rest, m =>
      if isTerminal a then followPreRule first (b :: rest) m
      else followPreRule first (b :: rest) (fmUpdate m a (first b))

/-- The first followsets pass over all rules. -/
def followPre (first : FMap) : List GRule → FMap → FMap
  | [], m => m
  | r :: rest, m => followPre first rest (followPreRule first r.rhs m)

/-- One pass of the `while updated` followsets loop: for every
non-empty rule whose last symbol is a nonterminal (Python tests
`is_terminal(rule.rhs[-1][1])`, unwrapping the extended symbol), add
`Follow(lhs)` to `Follow(last)`; the flag is `len(...) > old_len`. -/
def followPass : List GRule → FMap → FMap × Bool
  | [], m => (m, false)
  | r :: rest, m =>
      match r.rhs.getLast? with
      | none => followPass rest m
      | some lastSym =>
          if isTerminal lastSym then followPass rest m
          else
            let grew := (m lastSym).card < (m lastSym ∪ m r.lhs).card
            let res := followPass rest (fmUpdate m lastSym (m r.lhs))
            (res.1, grew || res.2)

/-- The `while updated` loop of `build_followsets`, with fuel. -/
def followLoop : Nat → List GRule → FMap → FMap
  | 0, _, m => m
  | fuel + 1, rules, m =>
      let res := followPass rules m
      if res.2 then followLoop fuel rules res.1 else res.1

/-- `Grammar.build_followsets`: build the firstsets, pre-populate,
apply the adjacent-pair pass once, then iterate the last-symbol pass
to a fixed point. -/
def build_followsets (g : CFG) (fuelFirst fuelFollow : Nat) : FMap :=
  followLoop fuelFollow g.rules
    (followPre (build_firstsets g fuelFirst) g.rules (followInit g))

/-- FIRST of a sentential form following the specification's
equations: fold FIRST of the symbols left to right, dropping ε and
continuing while the symbol is ε-derivable; ε itself is in the result
only when every symbol is ε-derivable. -/
def specFirstSeq (first : FMap) : List GSym → Finset GSym
  | [] => {GSym.empty}
  | s :: rest =>
      if GSym.empty ∈ first s then (first s \ {GSym.empty}) ∪ specFirstSeq first rest
      else first s

/-- A rule with no precedence, mode 0 and no pointer. -/
def mkRule (lhs : GSym) (rhs : List GSym) : GRule :=
  ⟨lhs, rhs, none, false, 0, none⟩

/-- The counterexample grammar for C1 (symbols: `S = nonterm 0`,
`R = nonterm 1`, `D = nonterm 2`, `A = nonterm 3`, `b = term 0`,
`c = term 1`, end symbol `term 2`):
`S → R`, `R → D A b`, `A → ε`, `D → c`. -/
def G1 : CFG :=
  ⟨GSym.nonterm 0, {GSym.term 2},
   [mkRule (GSym.nonterm 0) [GSym.nonterm 1],
    mkRule (GSym.nonterm 1) [GSym.nonterm 2, GSym.nonterm 3, GSym.term 0],
    mkRule (GSym.nonterm 3) [],
    mkRule (GSym.nonterm 2) [GSym.term 1]]⟩

/-- C1 counterexample: in `G1`'s rule `R → D A b`, the tail
`β = A b` after the nonterminal `D` has `FIRST(β) \ ε = {b}` (because
`A` is ε-derivable), so the claimed equations require
`b ∈ FOLLOW(D)`; but `build_followsets` — even though its loop has
reached a fixed point — only ever added `FIRST(A) = {ε}` to
`FOLLOW(D)`, so `b` is missing. -/
theorem followsets_miss_tail_first :
    GSym.term 0 ∈
      specFirstSeq (build_firstsets G1 10) [GSym.nonterm 3, GSym.term 0] \
        {GSym.empty} ∧
    (followPass G1.rules (build_followsets G1 10 10)).2 = false ∧
    GSym.term 0 ∉ build_followsets G1 10 10 (GSym.nonterm 2) := by
  decide

theorem fmUpdate_subset (m : FMap) (s : GSym) (add : Finset GSym) (x : GSym) :
    m x ⊆ fmUpdate m s add x := by
  unfold fmUpdate
  by_cases h : x = s
  · subst h
    simp only [if_pos rfl]
    exact Finset.subset_union_left
  · simp only [if_neg h]
    exact subset_rfl

theorem followPreRule_subset (first : FMap) :
    ∀ (rhs : List GSym) (m : FMap) (x : GSym), m x ⊆ followPreRule first rhs m x := by
  intro rhs
  induction rhs with
  | nil => intro m x; exact subset_rfl
  | cons a rest ih =>
      intro m x
      cases rest with
      | nil => exact subset_rfl
      | cons b rest2 =>
          rw [followPreRule]
          split
          · exact ih m x
          · exact (fmUpdate_subset m a (first b) x).trans (ih _ x)

theorem followPre_subset (first : FMap) :
    ∀ (rules : List GRule) (m : FMap) (x : GSym), m x ⊆ followPre first rules m x := by
  intro rules
  induction rules with
  | nil => intro m x; exact subset_rfl
  | cons r rest ih =>
      intro m x
      rw [followPre]
      exact (followPreRule_subset first r.rhs m x).trans (ih _ x)

theorem followPass_fst_subset :
    ∀ (rules : List GRule) (m : FMap) (x : GSym), m x ⊆ (followPass rules m).1 x := by
  intro rules
  induction rules with
  | nil => intro m x; exact subset_rfl
  | cons r rest ih =>
      intro m x
      rcases hl : r.rhs.getLast? with _ | ls <;> simp only [followPass, hl]
      · exact ih m x
      · split
        · exact ih m x
        · exact (fmUpdate_subset m ls (m r.lhs) x).trans (ih _ x)

theorem followLoop_subset :
    ∀ (fuel : Nat) (rules : List GRule) (m : FMap) (x : GSym),
      m x ⊆ followLoop fuel rules m x := by
  intro fuel
  induction fuel with
  | zero => intro rules m x; exact subset_rfl
  | succ n ih =>
      intro rules m x
      rw [followLoop]
      split
      · exact (followPass_fst_subset rules m x).trans (ih rules _ x)
      · exact followPass_fst_subset rules m x

theorem followPreRule_adds_first (first : FMap) :
    ∀ (pre : List GSym) (a b : GSym) (post : List GSym) (m : FMap),
      isTerminal a = false →
      first b ⊆ followPreRule first (pre ++ a :: b :: post) m a := by
  intro pre
  induction pre with
  | nil =>
      intro a b post m ha
      rw [List.nil_append, followPreRule, if_neg (by rw [ha]; exact Bool.false_ne_true)]
      refine Finset.Subset.trans ?_ (followPreRule_subset first (b :: post) _ a)
      unfold fmUpdate
      rw [if_pos rfl]
      exact Finset.subset_union_right
  | cons p pre2 ih =>
      intro a b post m ha
      cases hq : pre2 ++ a :: b :: post with
      | nil => exact absurd hq (by simp)
      | cons q rest2 =>
          rw [List.cons_append, hq, followPreRule, ← hq]
          split
          · exact ih a b post m ha
          · exact ih a b post _ ha

theorem followPre_adds_first (first : FMap) :
    ∀ (rules : List GRule) (m : FMap) (r : GRule), r ∈ rules →
      ∀ (pre : List GSym) (a b : GSym) (post : List GSym),
        r.rhs = pre ++ a :: b :: post → isTerminal a = false →
        first b ⊆ followPre first rules m a := by
  intro rules
  induction rules with
  | nil =>
      intro m r hr
      exact absurd hr (List.not_mem_nil r)
  | cons r0 rest ih =>
      intro m r hr pre a b post hrhs ha
      rw [followPre]
      rcases List.mem_cons.mp hr with h | h
      · subst h
        refine Finset.Subset.trans ?_ (followPre_subset first rest _ a)
        rw [hrhs] at *
        exact followPreRule_adds_first first pre a b post m ha
      · exact ih _ r h pre a b post hrhs ha

theorem subset_of_not_card_lt (s t : Finset GSym) (h : ¬ s.card < (s ∪ t).card) :
    t ⊆ s := by
  have heq : s = s ∪ t :=
    Finset.eq_of_subset_of_card_le Finset.subset_union_left (Nat.le_of_not_lt h)
  intro y hy
  have hy2 : y ∈ s ∪ t := Finset.mem_union_right s hy
  rwa [← heq] at hy2

theorem fmUpdate_absorb (m : FMap) (s : GSym) (t : Finset GSym) (h : t ⊆ m s) :
    fmUpdate m s t = m := by
  funext x
  unfold fmUpdate
  by_cases hx : x = s
  · subst hx
    rw [if_pos rfl]
    exact Finset.union_eq_left.mpr h
  · rw [if_neg hx]

theorem followPass_flag_false :
    ∀ (rules : List GRule) (m : FMap), (followPass rules m).2 = false →
      ∀ r ∈ rules, ∀ ls, r.rhs.getLast? = some ls → isTerminal ls = false →
        m r.lhs ⊆ m ls := by
  intro rules
  induction rules with
  | nil =>
      intro m _ r hr
      exact absurd hr (List.not_mem_nil r)
  | cons r0 rest ih =>
      intro m hflag r hr ls hls hterm
      rcases hl0 : r0.rhs.getLast? with _ | ls0 <;>
        simp only [followPass, hl0] at hflag
      · rcases List.mem_cons.mp hr with h | h
        · subst h
          rw [hls] at hl0
          exact absurd hl0 (by simp)
        · exact ih m hflag r h ls hls hterm
      · by_cases ht0 : isTerminal ls0 = true
        · rw [if_pos ht0] at hflag
          rcases List.mem_cons.mp hr with h | h
          · subst h
            rw [hls] at hl0
            injection hl0 with hl0e
            rw [← hl0e] at ht0
            rw [ht0] at hterm
            exact absurd hterm (by simp)
          · exact ih m hflag r h ls hls hterm
        · rw [if_neg ht0] at hflag
          rw [Bool.or_eq_false_iff] at hflag
          obtain ⟨hgrew, hrest⟩ := hflag
          have hsub0 : m r0.lhs ⊆ m ls0 :=
            subset_of_not_card_lt _ _ (of_decide_eq_false hgrew)
          rw [fmUpdate_absorb m ls0 (m r0.lhs) hsub0] at hrest
          rcases List.mem_cons.mp hr with h | h
          · subst h
            rw [hls] at hl0
            injection hl0 with hl0e
            rw [hl0e]
            exact hsub0
          · exact ih m hrest r h ls hls hterm

/-- C1 amended: once the `while updated` loop of `build_followsets`
has reached its fixed point, the computed sets satisfy exactly the
equations the code implements: FOLLOW(start) contains the end symbols;
for every rule `R → α D b β` with `D` a nonterminal, FOLLOW(D)
contains the full FIRST of the single next symbol `b` (including ε,
with no continuation into the rest of the tail and no FOLLOW(R)
contribution for ε-derivable tails); and for every rule `R → α D`
ending in nonterminal `D`, FOLLOW(D) contains FOLLOW(R). -/
theorem followsets_fixed_point_characterization (g : CFG)
    (fuelFirst fuelFollow : Nat)
    (hfix : (followPass g.rules (build_followsets g fuelFirst fuelFollow)).2 = false) :
    (∀ e ∈ g.endSymbols, e ∈ build_followsets g fuelFirst fuelFollow g.startSymbol) ∧
    (∀ r ∈ g.rules, ∀ (pre : List GSym) (a b : GSym) (post : List GSym),
      r.rhs = pre ++ a :: b :: post → isTerminal a = false →
      build_firstsets g fuelFirst b ⊆ build_followsets g fuelFirst fuelFollow a) ∧
    (∀ r ∈ g.rules, ∀ ls, r.rhs.getLast? = some ls → isTerminal ls = false →
      build_followsets g fuelFirst fuelFollow r.lhs ⊆
        build_followsets g fuelFirst fuelFollow ls) := by
  refine ⟨?_, ?_, ?_⟩
  · intro e he
    have h0 : e ∈ followInit g g.startSymbol := by
      unfold followInit
      rw [if_pos rfl]
      exact he
    unfold build_followsets
    exact followLoop_subset fuelFollow g.rules _ g.startSymbol
      (followPre_subset (build_firstsets g fuelFirst) g.rules (followInit g)
        g.startSymbol h0)
  · intro r hr pre a b post hrhs ha
    unfold build_followsets
    exact Finset.Subset.trans
      (followPre_adds_first (build_firstsets g fuelFirst) g.rules (followInit g)
        r hr pre a b post hrhs ha)
      (followLoop_subset fuelFollow g.rules _ a)
  · intro r hr ls hls hterm
    exact followPass_flag_false g.rules _ hfix r hr ls hls hterm

/-- Witness for C1 at the concrete grammar `G1`: its loop is at a
fixed point, and chaining part one (the end symbol is in FOLLOW(S))
with part three on the rule `S → R` puts the end symbol in FOLLOW(R). -/
theorem followsets_fixed_point_witness :
    GSym.term 2 ∈ build_followsets G1 10 10 (GSym.nonterm 1) := by
  have h := followsets_fixed_point_characterization G1 10 10 (by decide)
  exact h.2.2 (mkRule (GSym.nonterm 0) [GSym.nonterm 1]) (by simp [G1])
    (GSym.nonterm 1) rfl rfl (h.1 (GSym.term 2) (by decide))
